import Mathlib

/-!
Verification of the reconciliation matching engine of `conciliacao-bancaria`.

The embedding follows `internal/domain/service/reconciliation_service.go` and
`internal/domain/model/*.go`.  Monetary amounts (Go `float64`) are modelled as
rationals; dates (Go `time.Time`) as integers (an absolute time line on which
only subtraction and comparison are used, matching the code's use of `Sub`,
`Before` and `Duration` comparison).  Go's `map[string]bool` tracking maps are
modelled as lists of strings with membership lookup; `map[string]*Payment` is
modelled as a function `String → Option Payment` built by in-order insertion,
so a later insertion with the same key overwrites an earlier one, exactly as a
Go map assignment does.  Fields of the Go structs that the engine never reads
(`CreatedAt`, `UpdatedAt`) are omitted.
-/

namespace Conciliacao

/-- Go struct `model.Billet` (fields used by the engine): `ID`, `BankAccount`,
`Amount`, `IssuanceDate`, `ReferenceID` (a nullable `*string`). -/
structure Billet where
  id : String
  bankAccount : String
  amount : ℚ
  issuanceDate : ℤ
  referenceId : Option String
deriving DecidableEq, Repr

/-- Go struct `model.Payment` (fields used by the engine): `ID`, `BankAccount`,
`Amount`, `PaymentDate`, `ReferenceID` (a nullable `*string`). -/
structure Payment where
  id : String
  bankAccount : String
  amount : ℚ
  paymentDate : ℤ
  referenceId : Option String
deriving DecidableEq, Repr

/-- Go type `model.ConciliationStatus`, a string type. -/
abbrev ConciliationStatus := String

/-- Constant `model.StatusSuccessful`. -/
def StatusSuccessful : ConciliationStatus := "conciliado_com_sucesso"

/-- Constant `model.StatusDifferentValue`. -/
def StatusDifferentValue : ConciliationStatus := "valor_diferente"

/-- Go type `model.ConciliationStrategy`, a string type. -/
abbrev ConciliationStrategy := String

/-- Constant `model.StrategyReferenceID`. -/
def StrategyReferenceID : ConciliationStrategy := "reference_id"

/-- Constant `model.StrategyAccountAmountDate`. -/
def StrategyAccountAmountDate : ConciliationStrategy := "conta_valor_data"

/-- Go struct `model.ReconciledBillet`. -/
structure ReconciledBillet where
  billetId : String
  bankAccount : String
  transactionId : String
  conciliationStatus : ConciliationStatus
  conciliationStrategy : ConciliationStrategy
  referenceId : Option String
  amountDiff : ℚ
deriving DecidableEq, Repr

/-- Go struct `model.ReconciliationResult`. -/
structure ReconciliationResult where
  reconciledBillets : List ReconciledBillet
  nonReconciledBillets : List Billet
deriving DecidableEq, Repr

/-- Constant `service.TolerancePercentage` (5.0). -/
def TolerancePercentage : ℚ := 5

/-- The mutable state threaded through both strategies:
`reconciledBilletsMap`, `usedPaymentsMap` (Go `map[string]bool`, modelled as
the list of keys mapped to `true`), and the `reconciledBillets` output slice. -/
structure RecState where
  reconciledBillets : List ReconciledBillet
  reconciledBilletIds : List String
  usedPaymentIds : List String
deriving DecidableEq, Repr

/-- The comparison `amountDiffPercentage <= TolerancePercentage` where
`amountDiffPercentage := (amountDiff / billet.Amount) * 100` in Go `float64`
arithmetic.  When `billet.Amount = 0`, Go evaluates `amountDiff / 0` to `+Inf`
(for `amountDiff > 0`; here `amountDiff = |x|` is never negative) or to `NaN`
(for `amountDiff = 0`), and both `+Inf <= 5` and `NaN <= 5` are false, so the
comparison is false whenever the billet amount is zero. -/
def diffPctLeTol (amountDiff amount : ℚ) : Bool :=
  if amount = 0 then false
  else decide (amountDiff / amount * 100 ≤ TolerancePercentage)

/-- The comparison `amountDiffPercentage > TolerancePercentage` of the second
strategy, with the same Go `float64` semantics at `billet.Amount = 0`:
`+Inf > 5` is true (`amountDiff ≠ 0`) and `NaN > 5` is false (`amountDiff = 0`). -/
def diffPctGtTol (amountDiff amount : ℚ) : Bool :=
  if amount = 0 then decide (amountDiff ≠ 0)
  else decide (amountDiff / amount * 100 > TolerancePercentage)

/-- The status determination of `reconcileByReferenceID` (lines 111-119):
`some status` when the billet is conciliated by the first strategy, `none`
when the value difference is too large and the billet falls through
(`continue`). -/
def referenceIdStatus (amountDiff amount : ℚ) : Option ConciliationStatus :=
  if amountDiff = 0 then some StatusSuccessful
  else if diffPctLeTol amountDiff amount then some StatusDifferentValue
  else none

/-- One insertion of the `paymentsByReferenceID` map build loop at the start
of `reconcileByReferenceID` (lines 81-86): a payment with a non-nil, non-empty
`ReferenceID` that is not in `usedPaymentsMap` is stored under its reference
id; a later payment with the same reference id overwrites an earlier one (Go
map assignment). -/
def refMapInsert (usedPaymentIds : List String)
    (m : String → Option Payment) (payment : Payment) : String → Option Payment :=
  match payment.referenceId with
  | none => m
  | some r =>
      if r ≠ "" ∧ payment.id ∉ usedPaymentIds then
        fun k => if k = r then some payment else m k
      else m

/-- The finished `paymentsByReferenceID` map: fold `refMapInsert` over the
payments in input order starting from the empty map. -/
def buildPaymentsByReferenceID (usedPaymentIds : List String)
    (payments : List Payment) : String → Option Payment :=
  payments.foldl (refMapInsert usedPaymentIds) (fun _ => none)

/-- One iteration of the billet loop of `reconcileByReferenceID`
(lines 89-135) for billet `b`, given the lookup map `pm`. -/
def referenceIdStep (pm : String → Option Payment) (st : RecState)
    (b : Billet) : RecState :=
  if b.id ∈ st.reconciledBilletIds then st
  else
    match b.referenceId with
    | none => st
    | some r =>
        if r = "" then st
        else
          match pm r with
          | none => st
          | some payment =>
              match referenceIdStatus (|payment.amount - b.amount|) b.amount with
              | none => st
              | some status =>
                  { reconciledBillets := st.reconciledBillets ++
                      [{ billetId := b.id
                         bankAccount := b.bankAccount
                         transactionId := payment.id
                         conciliationStatus := status
                         conciliationStrategy := StrategyReferenceID
                         referenceId := b.referenceId
                         amountDiff := |payment.amount - b.amount| }]
                    reconciledBilletIds := b.id :: st.reconciledBilletIds
                    usedPaymentIds := payment.id :: st.usedPaymentIds }

/-- Function `reconcileByReferenceID` (first strategy). -/
def reconcileByReferenceID (billets : List Billet) (payments : List Payment)
    (st : RecState) : RecState :=
  let pm := buildPaymentsByReferenceID st.usedPaymentIds payments
  billets.foldl (referenceIdStep pm) st

/-- Whether a billet passes the filters of the inner billet loop of
`reconcileByAccountValueDate` (lines 157-175) for payment `p`: not already
conciliated, same bank account, and value difference within tolerance. -/
def accountValueDateCandidate (reconciledBilletIds : List String)
    (p : Payment) (b : Billet) : Bool :=
  ¬ b.id ∈ reconciledBilletIds ∧
  b.bankAccount = p.bankAccount ∧
  ¬ diffPctGtTol (|p.amount - b.amount|) b.amount

/-- One iteration of the inner billet loop of `reconcileByAccountValueDate`
(lines 157-204): the running best is `none` (Go `bestBillet == nil`) or
`some (bestBillet, minDateDiff, bestAmountDiff)`. -/
def bestCandidateStep (reconciledBilletIds : List String) (p : Payment)
    (best : Option (Billet × ℤ × ℚ)) (b : Billet) : Option (Billet × ℤ × ℚ) :=
  if accountValueDateCandidate reconciledBilletIds p b then
    match best with
    | none => some (b, |p.paymentDate - b.issuanceDate|, |p.amount - b.amount|)
    | some (bestBillet, minDateDiff, bestAmountDiff) =>
        if |p.paymentDate - b.issuanceDate| < minDateDiff ∨
           (|p.paymentDate - b.issuanceDate| = minDateDiff ∧
             |p.amount - b.amount| < bestAmountDiff) ∨
           (|p.paymentDate - b.issuanceDate| = minDateDiff ∧
             |p.amount - b.amount| = bestAmountDiff ∧
             b.issuanceDate < bestBillet.issuanceDate) then
          some (b, |p.paymentDate - b.issuanceDate|, |p.amount - b.amount|)
        else best
  else best

/-- The full inner billet scan of `reconcileByAccountValueDate` for one
payment: the best billet (with its date and amount differences), if any. -/
def findBestBillet (reconciledBilletIds : List String) (p : Payment)
    (billets : List Billet) : Option (Billet × ℤ × ℚ) :=
  billets.foldl (bestCandidateStep reconciledBilletIds p) none

/-- One iteration of the payment loop of `reconcileByAccountValueDate`
(lines 147-231). -/
def accountValueDateStep (billets : List Billet) (st : RecState)
    (p : Payment) : RecState :=
  if p.id ∈ st.usedPaymentIds then st
  else
    match findBestBillet st.reconciledBilletIds p billets with
    | none => st
    | some (bestBillet, _, bestAmountDiff) =>
        { reconciledBillets := st.reconciledBillets ++
            [{ billetId := bestBillet.id
               bankAccount := bestBillet.bankAccount
               transactionId := p.id
               conciliationStatus :=
                 if bestAmountDiff = 0 then StatusSuccessful
                 else StatusDifferentValue
               conciliationStrategy := StrategyAccountAmountDate
               referenceId := bestBillet.referenceId
               amountDiff := bestAmountDiff }]
          reconciledBilletIds := bestBillet.id :: st.reconciledBilletIds
          usedPaymentIds := p.id :: st.usedPaymentIds }

/-- Function `reconcileByAccountValueDate` (second strategy). -/
def reconcileByAccountValueDate (billets : List Billet)
    (payments : List Payment) (st : RecState) : RecState :=
  payments.foldl (accountValueDateStep billets) st

/-- The report computed by `ReconcileBilletsWithPayments` (lines 34-64): run
both strategies over fresh tracking state, then collect the non-conciliated
billets in input order. -/
def reconcileReport (billets : List Billet)
    (payments : List Payment) : ReconciliationResult :=
  { reconciledBillets :=
      (reconcileByAccountValueDate billets payments
        (reconcileByReferenceID billets payments ⟨[], [], []⟩)).reconciledBillets
    nonReconciledBillets :=
      billets.filter (fun b => ¬ b.id ∈
        (reconcileByAccountValueDate billets payments
          (reconcileByReferenceID billets payments ⟨[], [], []⟩)).reconciledBilletIds) }

/-- Method `ReconcileBilletsWithPayments` (lines 34-64).  The Go method ends
with `return result, nil`; the `(*ReconciliationResult, error)` return pair is
modelled by `Except`, so the method always produces `Except.ok`. -/
def ReconcileBilletsWithPayments (billets : List Billet)
    (payments : List Payment) : Except String ReconciliationResult :=
  Except.ok (reconcileReport billets payments)

/-- The reference data set of the repository README ("Dados de Exemplo"):
billets B001..B004.  Dates are day numbers of March 2024. -/
def sampleBillets : List Billet :=
  [ ⟨"B001", "C123", 100, 1, some "REF001"⟩,
    ⟨"B002", "C345", 200, 2, none⟩,
    ⟨"B003", "C678", 300, 3, some "REF003"⟩,
    ⟨"B004", "C910", 150, 4, some "REF004"⟩ ]

/-- The reference data set of the repository README: payments T100..T103. -/
def samplePayments : List Payment :=
  [ ⟨"T100", "C123", 100, 5, some "REF001"⟩,
    ⟨"T101", "C345", 195, 4, none⟩,
    ⟨"T102", "C678", 300, 10, some "REF999"⟩,
    ⟨"T103", "C999", 150, 6, some "REF004"⟩ ]

/-- Two billets sharing reference id R, exposing payment reuse in phase 1. -/
def duplicateRefBillets : List Billet :=
  [ ⟨"B1", "A", 100, 0, some "R"⟩, ⟨"B2", "A", 100, 0, some "R"⟩ ]

/-- A single payment carrying reference id R. -/
def duplicateRefPayments : List Payment := [ ⟨"T1", "A", 100, 0, some "R"⟩ ]

/-- A billet whose reference id is shared by two payments. -/
def collisionBillets : List Billet := [ ⟨"B1", "A", 200, 0, some "R"⟩ ]

/-- Two payments carrying the same reference id R; the first has an amount far
from the billet's, the second matches it exactly. -/
def collisionPayments : List Payment :=
  [ ⟨"P1", "A", 100, 0, some "R"⟩, ⟨"P2", "B", 200, 0, some "R"⟩ ]

/-- A billet on bank account A whose reference id is carried by a payment on a
different bank account. -/
def crossAccountBillet : Billet := ⟨"B1", "A", 10, 0, some "R"⟩

/-- A payment on bank account B carrying the same reference id as
`crossAccountBillet`. -/
def crossAccountPayment : Payment := ⟨"P1", "B", 10, 0, some "R"⟩

end Conciliacao

namespace Conciliacao

attribute [local semireducible] Rat.mul Rat.add Rat.sub Rat.inv

/-- C6: on the reference data set (billets B001..B004, payments T100..T103,
tolerance 5%), the engine reconciles B001 with T100 as conciliado_com_sucesso
via reference_id with diff 0, B002 with T101 as valor_diferente via
conta_valor_data with diff 5.00, B003 with T102 as conciliado_com_sucesso via
conta_valor_data with diff 0, and B004 with T103 as conciliado_com_sucesso via
reference_id with diff 0, with an empty unmatched sequence. -/
theorem c6_reference_dataset :
    reconcileReport sampleBillets samplePayments =
      { reconciledBillets :=
          [ ⟨"B001", "C123", "T100", StatusSuccessful, StrategyReferenceID,
              some "REF001", 0⟩,
            ⟨"B004", "C910", "T103", StatusSuccessful, StrategyReferenceID,
              some "REF004", 0⟩,
            ⟨"B002", "C345", "T101", StatusDifferentValue,
              StrategyAccountAmountDate, none, 5⟩,
            ⟨"B003", "C678", "T102", StatusSuccessful,
              StrategyAccountAmountDate, some "REF003", 0⟩ ],
        nonReconciledBillets := [] } := by
  decide

/-- C1 (failing input): with two billets sharing reference id R and a single
payment T1 carrying R, phase 1 matches both billets to the same payment: the
billet loop of `reconcileByReferenceID` never consults `usedPaymentsMap`, so
the reconciled list carries the transaction id T1 twice. -/
theorem c1_payment_consumed_twice :
    ((reconcileReport duplicateRefBillets duplicateRefPayments).reconciledBillets.map
        (fun e => e.transactionId)) = ["T1", "T1"] := by
  decide

/-- C2 (counterexample): with payments P1 then P2 both carrying reference id R,
the billet with reference id R is matched in phase 1 to the LATER payment P2
(amount 200, diff 0), not left unmatched by phase 1 as it would be if only the
first payment P1 (amount 100, 50% diff) were eligible — the Go map build
overwrites, so the last duplicate wins, refuting first-encountered
eligibility. -/
theorem c2_counterexample :
    ((reconcileReport collisionBillets collisionPayments).reconciledBillets.map
        (fun e => (e.transactionId, e.conciliationStrategy))) =
      [("P2", StrategyReferenceID)] := by
  decide

/-- C3 (counterexample): phase 1 never compares bank accounts, so a billet on
account A is matched with a payment on account B when they share a reference
id — the produced MatchResult pairs records of different bank accounts. -/
theorem c3_counterexample :
    crossAccountBillet.bankAccount ≠ crossAccountPayment.bankAccount ∧
    ((reconcileReport [crossAccountBillet] [crossAccountPayment]).reconciledBillets.map
        (fun e => (e.billetId, e.transactionId))) =
      [(crossAccountBillet.id, crossAccountPayment.id)] := by
  decide

/-- Folding `refMapInsert` with an empty used-payments set looks up, at any
non-empty key, the last payment of the input carrying that key as its
reference id (a later Go map assignment overwrites an earlier one); when no
payment carries the key, the initial map decides. -/
lemma foldl_refMapInsert_eq_find_reverse (k : String) (hk : k ≠ "") :
    ∀ (payments : List Payment) (acc : String → Option Payment),
      payments.foldl (refMapInsert []) acc k =
        match payments.reverse.find? (fun p => p.referenceId = some k) with
        | some p => some p
        | none => acc k := by
  intro payments
  induction payments with
  | nil => intro acc; rfl
  | cons p ps ih =>
      intro acc
      rw [List.foldl_cons, ih, List.reverse_cons, List.find?_append]
      rcases hfind : ps.reverse.find? (fun q => q.referenceId = some k) with _ | q
      · rw [hfind]
        rcases hpr : p.referenceId with _ | r
        · simp [refMapInsert, hpr]
        · by_cases hrk : k = r
          · subst hrk
            simp [refMapInsert, hpr, hk]
          · have hkr : ¬ (r = k) := fun h => hrk h.symm
            rcases eq_or_ne r "" with hre | hre
            · have hek : ¬ ("" = k) := fun h => hk h.symm
              simp [refMapInsert, hpr, hre, hek]
            · simp [refMapInsert, hpr, hre, hkr, hrk]
      · rw [hfind]
        simp

/-- C2 (amended): in phase 1, when multiple payments carry the same non-empty
correspondence identifier, only the LAST such payment in input order is
eligible to be matched — the `paymentsByReferenceID` lookup used by phase 1
maps each non-empty identifier to the last payment of the input carrying it
(the build loop overwrites earlier duplicates), and the earlier duplicates
are invisible to phase 1, falling through to phase 2 or remaining unmatched.
The used-payments set is empty when the map is built, as in every run. -/
theorem c2_amended_last_payment_wins (payments : List Payment) (k : String)
    (hk : k ≠ "") :
    buildPaymentsByReferenceID [] payments k =
      payments.reverse.find? (fun p => p.referenceId = some k) := by
  have h := foldl_refMapInsert_eq_find_reverse k hk payments (fun _ => none)
  unfold buildPaymentsByReferenceID
  rw [h]
  rcases hfind : payments.reverse.find? (fun p => p.referenceId = some k) with _ | q
  · rw [hfind]
  · rw [hfind]

/-- Witness for the amended C2 at the collision data set: the lookup at key R
returns the last payment P2, the first payment of the reversed input. -/
theorem c2_amended_last_payment_wins_witness :
    buildPaymentsByReferenceID [] collisionPayments "R" =
      collisionPayments.reverse.find? (fun p => p.referenceId = some "R") :=
  c2_amended_last_payment_wins collisionPayments "R" (by decide)

/-- A billet whose amount is zero. -/
def zeroAmountBillet : Billet := ⟨"BZ", "A", 0, 0, some "RZ"⟩

/-- A payment whose amount differs from `zeroAmountBillet`'s. -/
def nonzeroDiffPayment : Payment := ⟨"PZ", "A", 7, 0, some "RZ"⟩

/-- C4: for every billet whose amount is 0 and every candidate payment with a
nonzero amount difference, both phases treat the pair as exceeding tolerance
and skip it: the phase-1 status determination yields no match (the Go
comparison `diff/0*100 <= 5` on `+Inf` is false), and the phase-2 candidate
filter rejects the pair (`diff/0*100 > 5` on `+Inf` is true), so the
percentage computation on a zero billet amount never changes a match
outcome and no division fault occurs. -/
theorem c4_zero_amount_billet (b : Billet) (p : Payment)
    (h0 : b.amount = 0) (hd : p.amount ≠ b.amount) :
    referenceIdStatus (|p.amount - b.amount|) b.amount = none ∧
    ∀ reconciledBilletIds,
      accountValueDateCandidate reconciledBilletIds p b = false := by
  have hd0 : p.amount ≠ 0 := by rw [h0] at hd; exact hd
  constructor
  · simp [referenceIdStatus, diffPctLeTol, h0, hd0]
  · intro ids
    simp [accountValueDateCandidate, diffPctGtTol, h0, hd0]

/-- Witness for C4 at a zero-amount billet and a payment of amount 7:
phase 1 yields no status and the phase-2 candidate filter rejects. -/
theorem c4_zero_amount_billet_witness :
    referenceIdStatus (|nonzeroDiffPayment.amount - zeroAmountBillet.amount|)
        zeroAmountBillet.amount = none ∧
    accountValueDateCandidate [] nonzeroDiffPayment zeroAmountBillet = false :=
  ⟨(c4_zero_amount_billet zeroAmountBillet nonzeroDiffPayment rfl
      (by decide)).1,
   (c4_zero_amount_billet zeroAmountBillet nonzeroDiffPayment rfl
      (by decide)).2 []⟩

/-- C7: phase-1 classification.  For a billet not yet conciliated, with
non-empty reference id `r` looked up to payment `p` and nonzero amount (the
percentage is the Go formula only then): equal amounts yield a MatchResult
with status conciliado_com_sucesso and strategy reference_id; a nonzero
amount difference whose percentage is exactly the tolerance yields status
valor_diferente (still strategy reference_id); a percentage exceeding the
tolerance leaves the state unchanged, so the billet is not marked conciliated
and remains eligible for phase 2. -/
theorem c7_phase1_classification (pm : String → Option Payment)
    (st : RecState) (b : Billet) (p : Payment) (r : String)
    (hnc : b.id ∉ st.reconciledBilletIds) (hr : b.referenceId = some r)
    (hne : r ≠ "") (hpm : pm r = some p) (hamt : b.amount ≠ 0) :
    (p.amount = b.amount →
      referenceIdStep pm st b =
        { reconciledBillets := st.reconciledBillets ++
            [⟨b.id, b.bankAccount, p.id, StatusSuccessful, StrategyReferenceID,
              b.referenceId, 0⟩],
          reconciledBilletIds := b.id :: st.reconciledBilletIds,
          usedPaymentIds := p.id :: st.usedPaymentIds }) ∧
    (|p.amount - b.amount| ≠ 0 →
      |p.amount - b.amount| / b.amount * 100 = TolerancePercentage →
      referenceIdStep pm st b =
        { reconciledBillets := st.reconciledBillets ++
            [⟨b.id, b.bankAccount, p.id, StatusDifferentValue,
              StrategyReferenceID, b.referenceId, |p.amount - b.amount|⟩],
          reconciledBilletIds := b.id :: st.reconciledBilletIds,
          usedPaymentIds := p.id :: st.usedPaymentIds }) ∧
    (|p.amount - b.amount| / b.amount * 100 > TolerancePercentage →
      referenceIdStep pm st b = st) := by
  refine ⟨?_, ?_, ?_⟩
  · intro heq
    simp [referenceIdStep, hnc, hr, hne, hpm, referenceIdStatus, heq]
  · intro hd hpct
    simp [referenceIdStep, hnc, hr, hne, hpm, referenceIdStatus, hd,
      diffPctLeTol, hamt, le_of_eq hpct]
  · intro hpct
    have hd : |p.amount - b.amount| ≠ 0 := by
      intro h
      rw [h] at hpct
      norm_num [TolerancePercentage] at hpct
    simp [referenceIdStep, hnc, hr, hne, hpm, referenceIdStatus, hd,
      diffPctLeTol, hamt, not_le.mpr hpct]

/-- A payment used to witness the phase-1 classification. -/
def c7Payment : Payment := ⟨"P1", "A", 100, 0, some "R"⟩

/-- A billet used to witness the phase-1 classification. -/
def c7Billet : Billet := ⟨"B1", "A", 100, 0, some "R"⟩

/-- A lookup map holding `c7Payment` under key R. -/
def c7Map : String → Option Payment := fun k => if k = "R" then some c7Payment else none

/-- Witness for C7: equal amounts (100 and 100) produce a
conciliado_com_sucesso MatchResult via reference_id with diff 0. -/
theorem c7_phase1_classification_witness :
    referenceIdStep c7Map ⟨[], [], []⟩ c7Billet =
      { reconciledBillets := [⟨"B1", "A", "P1", StatusSuccessful,
          StrategyReferenceID, some "R", 0⟩],
        reconciledBilletIds := ["B1"],
        usedPaymentIds := ["P1"] } :=
  (c7_phase1_classification c7Map ⟨[], [], []⟩ c7Billet c7Payment "R"
    (by decide) rfl (by decide) rfl (by decide)).1 rfl

/-- Every entry of the reconciled list after one phase-1 billet step was
already present or carries strategy reference_id. -/
lemma referenceIdStep_entries (pm : String → Option Payment) (st : RecState)
    (b : Billet) :
    ∀ e ∈ (referenceIdStep pm st b).reconciledBillets,
      e ∈ st.reconciledBillets ∨
      e.conciliationStrategy = StrategyReferenceID := by
  intro e he
  unfold referenceIdStep at he
  repeat' split at he
  all_goals try exact Or.inl he
  all_goals simp only [List.mem_append, List.mem_singleton] at he
  all_goals rcases he with h | rfl
  all_goals try exact Or.inl h
  all_goals exact Or.inr rfl

/-- Every entry of the reconciled list after the phase-1 billet fold was
already present or carries strategy reference_id. -/
lemma foldl_referenceIdStep_entries (pm : String → Option Payment) :
    ∀ (billets : List Billet) (st : RecState),
      ∀ e ∈ (billets.foldl (referenceIdStep pm) st).reconciledBillets,
        e ∈ st.reconciledBillets ∨
        e.conciliationStrategy = StrategyReferenceID := by
  intro billets
  induction billets with
  | nil => intro st e he; exact Or.inl he
  | cons b bs ih =>
      intro st e he
      rw [List.foldl_cons] at he
      rcases ih (referenceIdStep pm st b) e he with h | h
      · exact referenceIdStep_entries pm st b e h
      · exact Or.inr h

/-- Every entry of the reconciled list after phase 1 was already present or
carries strategy reference_id. -/
lemma reconcileByReferenceID_entries (billets : List Billet)
    (payments : List Payment) (st : RecState) :
    ∀ e ∈ (reconcileByReferenceID billets payments st).reconciledBillets,
      e ∈ st.reconciledBillets ∨
      e.conciliationStrategy = StrategyReferenceID := by
  unfold reconcileByReferenceID
  exact foldl_referenceIdStep_entries _ billets st

/-- If the inner phase-2 scan returns a best triple not equal to its initial
accumulator, then the billet is one of the scanned billets, passes the
candidate filters, and the two recorded differences are computed from it. -/
lemma foldl_bestCandidateStep_spec (ids : List String) (p : Payment) :
    ∀ (billets : List Billet) (init : Option (Billet × ℤ × ℚ))
      (bb : Billet) (dd : ℤ) (ad : ℚ),
      billets.foldl (bestCandidateStep ids p) init = some (bb, dd, ad) →
      init = some (bb, dd, ad) ∨
        (bb ∈ billets ∧ accountValueDateCandidate ids p bb = true ∧
         dd = |p.paymentDate - bb.issuanceDate| ∧
         ad = |p.amount - bb.amount|) := by
  intro billets
  induction billets with
  | nil => intro init bb dd ad h; exact Or.inl h
  | cons b bs ih =>
      intro init bb dd ad h
      rw [List.foldl_cons] at h
      rcases ih _ bb dd ad h with hstep | hmem
      · unfold bestCandidateStep at hstep
        split at hstep
        · split at hstep
          · simp only [Option.some.injEq, Prod.mk.injEq] at hstep
            obtain ⟨rfl, rfl, rfl⟩ := hstep
            right
            exact ⟨List.mem_cons_self b bs, by assumption, rfl, rfl⟩
          · split at hstep
            · simp only [Option.some.injEq, Prod.mk.injEq] at hstep
              obtain ⟨rfl, rfl, rfl⟩ := hstep
              right
              exact ⟨List.mem_cons_self b bs, by assumption, rfl, rfl⟩
            · exact Or.inl hstep
        · exact Or.inl hstep
      · exact Or.inr ⟨List.mem_cons_of_mem b hmem.1, hmem.2⟩

/-- The conjunction inside the phase-2 candidate filter, in particular the
bank-account equality. -/
lemma accountValueDateCandidate_account (ids : List String) (p : Payment)
    (b : Billet) (h : accountValueDateCandidate ids p b = true) :
    b.id ∉ ids ∧ b.bankAccount = p.bankAccount := by
  simp only [accountValueDateCandidate, decide_eq_true_eq] at h
  exact ⟨h.1, h.2.1⟩

/-- Every entry of the reconciled list after one phase-2 payment step was
already present, or is built from a billet of the input passing the candidate
filters (same bank account, not yet conciliated) and the payment itself. -/
lemma accountValueDateStep_entries (billets : List Billet) (st : RecState)
    (p : Payment) :
    ∀ e ∈ (accountValueDateStep billets st p).reconciledBillets,
      e ∈ st.reconciledBillets ∨
      ∃ b ∈ billets, b.bankAccount = p.bankAccount ∧
        e.billetId = b.id ∧ e.bankAccount = b.bankAccount ∧
        e.transactionId = p.id ∧ e.referenceId = b.referenceId ∧
        e.conciliationStrategy = StrategyAccountAmountDate := by
  intro e he
  unfold accountValueDateStep at he
  split at he
  · exact Or.inl he
  · split at he
    · exact Or.inl he
    · rename_i bb dd ad hfind
      unfold findBestBillet at hfind
      simp only [List.mem_append, List.mem_singleton] at he
      rcases he with h | rfl
      · exact Or.inl h
      · rcases foldl_bestCandidateStep_spec st.reconciledBilletIds p billets
            none bb dd ad hfind with hinit | ⟨hbmem, hcand, _, _⟩
        · cases hinit
        · right
          exact ⟨bb, hbmem,
            (accountValueDateCandidate_account _ _ _ hcand).2,
            rfl, rfl, rfl, rfl, rfl⟩

/-- Every entry of the reconciled list after the phase-2 payment fold was
already present, or is built from an input billet and an input payment on the
same bank account. -/
lemma foldl_accountValueDateStep_entries (billets : List Billet) :
    ∀ (payments : List Payment) (st : RecState),
      ∀ e ∈ (payments.foldl (accountValueDateStep billets) st).reconciledBillets,
        e ∈ st.reconciledBillets ∨
        ∃ p ∈ payments, ∃ b ∈ billets, b.bankAccount = p.bankAccount ∧
          e.billetId = b.id ∧ e.bankAccount = b.bankAccount ∧
          e.transactionId = p.id ∧ e.referenceId = b.referenceId ∧
          e.conciliationStrategy = StrategyAccountAmountDate := by
  intro payments
  induction payments with
  | nil => intro st e he; exact Or.inl he
  | cons p ps ih =>
      intro st e he
      rw [List.foldl_cons] at he
      rcases ih (accountValueDateStep billets st p) e he with h | hex
      · rcases accountValueDateStep_entries billets st p e h with h0 | ⟨b, hb, hrest⟩
        · exact Or.inl h0
        · exact Or.inr ⟨p, List.mem_cons_self p ps, b, hb, hrest⟩
      · rcases hex with ⟨q, hq, b, hb, hrest⟩
        exact Or.inr ⟨q, List.mem_cons_of_mem p hq, b, hb, hrest⟩

/-- Every conta_valor_data entry of a full run comes from an input billet and
an input payment, with all billet-derived fields taken from that billet. -/
lemma phase2_entry_origin (billets : List Billet) (payments : List Payment)
    (e : ReconciledBillet)
    (he : e ∈ (reconcileReport billets payments).reconciledBillets)
    (hs : e.conciliationStrategy = StrategyAccountAmountDate) :
    ∃ p ∈ payments, ∃ b ∈ billets, b.bankAccount = p.bankAccount ∧
      e.billetId = b.id ∧ e.bankAccount = b.bankAccount ∧
      e.transactionId = p.id ∧ e.referenceId = b.referenceId := by
  unfold reconcileReport at he
  simp only at he
  unfold reconcileByAccountValueDate at he
  rcases foldl_accountValueDateStep_entries billets payments
      (reconcileByReferenceID billets payments ⟨[], [], []⟩) e he with
    h1 | ⟨p, hp, b, hb, hacct, hbid, hba, htid, href, _⟩
  · rcases reconcileByReferenceID_entries billets payments ⟨[], [], []⟩ e h1 with
      h0 | hstrat
    · cases h0
    · rw [hstrat] at hs
      exact absurd hs (by decide)
  · exact ⟨p, hp, b, hb, hacct, hbid, hba, htid, href⟩

/-- C3 (amended): every MatchResult produced by the phase-2
(conta_valor_data) strategy pairs a billet and a payment having the same bank
account; phase-1 (reference_id) matches may cross accounts (see the
counterexample), since phase 1 never compares bank accounts. -/
theorem c3_amended_phase2_same_account (billets : List Billet)
    (payments : List Payment) (e : ReconciledBillet)
    (he : e ∈ (reconcileReport billets payments).reconciledBillets)
    (hs : e.conciliationStrategy = StrategyAccountAmountDate) :
    ∃ b ∈ billets, ∃ p ∈ payments,
      e.billetId = b.id ∧ e.transactionId = p.id ∧
      b.bankAccount = p.bankAccount := by
  rcases phase2_entry_origin billets payments e he hs with
    ⟨p, hp, b, hb, hacct, hbid, _, htid, _⟩
  exact ⟨b, hb, p, hp, hbid, htid, hacct⟩

/-- A billet on account Z, reconciled by phase 2 in the C3 witness run. -/
def samePairBillet : Billet := ⟨"B7", "Z", 50, 0, none⟩

/-- A payment on account Z matching `samePairBillet` by account and value. -/
def samePairPayment : Payment := ⟨"P7", "Z", 50, 3, none⟩

/-- Witness for the amended C3: in a run whose only match is produced by the
conta_valor_data strategy, the matched billet and payment share account Z. -/
theorem c3_amended_phase2_same_account_witness :
    ∃ b ∈ [samePairBillet], ∃ p ∈ [samePairPayment],
      (⟨"B7", "Z", "P7", StatusSuccessful, StrategyAccountAmountDate,
        none, 0⟩ : ReconciledBillet).billetId = b.id ∧
      (⟨"B7", "Z", "P7", StatusSuccessful, StrategyAccountAmountDate,
        none, 0⟩ : ReconciledBillet).transactionId = p.id ∧
      b.bankAccount = p.bankAccount :=
  c3_amended_phase2_same_account [samePairBillet] [samePairPayment]
    ⟨"B7", "Z", "P7", StatusSuccessful, StrategyAccountAmountDate, none, 0⟩
    (by decide) rfl

/-- C9: in every MatchResult produced by the phase-2 (conta_valor_data)
strategy, the reference_id field is the matched billet's correspondence
identifier — possibly non-null even though reference identifiers played no
role in the match — and never the payment's. -/
theorem c9_phase2_reference_id_from_billet (billets : List Billet)
    (payments : List Payment) (e : ReconciledBillet)
    (he : e ∈ (reconcileReport billets payments).reconciledBillets)
    (hs : e.conciliationStrategy = StrategyAccountAmountDate) :
    ∃ b ∈ billets, e.billetId = b.id ∧ e.referenceId = b.referenceId := by
  rcases phase2_entry_origin billets payments e he hs with
    ⟨p, hp, b, hb, _, hbid, _, _, href⟩
  exact ⟨b, hb, hbid, href⟩

/-- A billet carrying reference id X that phase 2 matches by account and
value in the C9 witness run. -/
def refCarryBillet : Billet := ⟨"B8", "Y", 70, 0, some "X"⟩

/-- A payment without reference id matching `refCarryBillet` in phase 2. -/
def refCarryPayment : Payment := ⟨"P8", "Y", 70, 2, none⟩

/-- Witness for C9: the conta_valor_data entry of the run carries the
billet's reference id X although the payment has none. -/
theorem c9_phase2_reference_id_from_billet_witness :
    ∃ b ∈ [refCarryBillet],
      (⟨"B8", "Y", "P8", StatusSuccessful, StrategyAccountAmountDate,
        some "X", 0⟩ : ReconciledBillet).billetId = b.id ∧
      (⟨"B8", "Y", "P8", StatusSuccessful, StrategyAccountAmountDate,
        some "X", 0⟩ : ReconciledBillet).referenceId = b.referenceId :=
  c9_phase2_reference_id_from_billet [refCarryBillet] [refCarryPayment]
    ⟨"B8", "Y", "P8", StatusSuccessful, StrategyAccountAmountDate, some "X", 0⟩
    (by decide) rfl

/-- The tracking-map invariant tying the reconciled list to
`reconciledBilletsMap`: a billet id occurs exactly once among the emitted
entries when it is marked, and never otherwise. -/
def CountInv (st : RecState) : Prop :=
  ∀ i : String,
    st.reconciledBillets.countP (fun e => e.billetId = i) =
      (if i ∈ st.reconciledBilletIds then 1 else 0)

/-- The invariant holds for the fresh state of a run. -/
lemma countInv_init : CountInv ⟨[], [], []⟩ := by
  intro i
  simp

/-- Emitting one entry for an unmarked billet and marking it preserves the
invariant; both strategies emit in exactly this shape. -/
lemma countInv_emit (st : RecState) (entry : ReconciledBillet) (pid : String)
    (h : CountInv st) (hnm : entry.billetId ∉ st.reconciledBilletIds) :
    CountInv { reconciledBillets := st.reconciledBillets ++ [entry],
               reconciledBilletIds := entry.billetId :: st.reconciledBilletIds,
               usedPaymentIds := pid :: st.usedPaymentIds } := by
  intro i
  have hsingle : [entry].countP (fun e => e.billetId = i) =
      (if entry.billetId = i then 1 else 0) := by
    simp [List.countP_cons]
  rcases eq_or_ne i entry.billetId with rfl | hib
  · rw [List.countP_append, h entry.billetId, if_neg hnm, hsingle, if_pos rfl]
    simp [List.mem_cons]
  · rw [List.countP_append, h i, hsingle, if_neg (Ne.symm hib)]
    by_cases hm : i ∈ st.reconciledBilletIds
    · simp [hm, hib]
    · simp [hm, hib]

/-- One phase-1 billet step preserves the invariant. -/
lemma countInv_referenceIdStep (pm : String → Option Payment) (st : RecState)
    (b : Billet) (h : CountInv st) : CountInv (referenceIdStep pm st b) := by
  unfold referenceIdStep
  split
  · exact h
  · rename_i hb
    split
    · exact h
    · split
      · exact h
      · split
        · exact h
        · split
          · exact h
          · exact countInv_emit st _ _ h hb

/-- One phase-2 payment step preserves the invariant: the chosen best billet
always passes the candidate filter, so it is not yet marked. -/
lemma countInv_accountValueDateStep (billets : List Billet) (st : RecState)
    (p : Payment) (h : CountInv st) :
    CountInv (accountValueDateStep billets st p) := by
  unfold accountValueDateStep
  split
  · exact h
  · split
    · exact h
    · rename_i bb dd ad hfind
      unfold findBestBillet at hfind
      rcases foldl_bestCandidateStep_spec st.reconciledBilletIds p billets
          none bb dd ad hfind with hinit | ⟨_, hcand, _, _⟩
      · cases hinit
      · exact countInv_emit st _ _ h
          ((accountValueDateCandidate_account _ _ _ hcand).1)

/-- The phase-1 fold preserves the invariant. -/
lemma countInv_foldl_referenceIdStep (pm : String → Option Payment) :
    ∀ (billets : List Billet) (st : RecState), CountInv st →
      CountInv (billets.foldl (referenceIdStep pm) st) := by
  intro billets
  induction billets with
  | nil => intro st h; exact h
  | cons b bs ih =>
      intro st h
      rw [List.foldl_cons]
      exact ih _ (countInv_referenceIdStep pm st b h)

/-- The phase-2 fold preserves the invariant. -/
lemma countInv_foldl_accountValueDateStep (billets : List Billet) :
    ∀ (payments : List Payment) (st : RecState), CountInv st →
      CountInv (payments.foldl (accountValueDateStep billets) st) := by
  intro payments
  induction payments with
  | nil => intro st h; exact h
  | cons p ps ih =>
      intro st h
      rw [List.foldl_cons]
      exact ih _ (countInv_accountValueDateStep billets st p h)

/-- The invariant holds for the state at the end of a full run. -/
lemma countInv_run (billets : List Billet) (payments : List Payment) :
    CountInv (reconcileByAccountValueDate billets payments
      (reconcileByReferenceID billets payments ⟨[], [], []⟩)) := by
  unfold reconcileByAccountValueDate reconcileByReferenceID
  exact countInv_foldl_accountValueDateStep billets payments _
    (countInv_foldl_referenceIdStep _ billets _ countInv_init)

/-- In a billet list with pairwise distinct ids, a member's id is counted
exactly once. -/
lemma countP_id_eq_one :
    ∀ (billets : List Billet), (billets.map Billet.id).Nodup →
      ∀ b ∈ billets, billets.countP (fun x => x.id = b.id) = 1 := by
  intro billets
  induction billets with
  | nil => intro _ b hb; cases hb
  | cons x xs ih =>
      intro hnd b hb
      rw [List.map_cons, List.nodup_cons] at hnd
      rcases List.mem_cons.mp hb with rfl | hbx
      · rw [List.countP_cons]
        have h0 : xs.countP (fun a => a.id = b.id) = 0 := by
          rw [List.countP_eq_zero]
          intro a ha
          simp only [decide_eq_true_eq]
          intro heq
          exact hnd.1 (heq ▸ List.mem_map_of_mem Billet.id ha)
        simp [h0]
      · rw [List.countP_cons, ih hnd.2 b hbx]
        have hx : ¬ (x.id = b.id) := by
          intro heq
          exact hnd.1 (heq ▸ List.mem_map_of_mem Billet.id hbx)
        simp [hx]

/-- C5: for every run over billets with pairwise distinct identifiers (they
are primary keys in the repository schema), every input billet appears in
exactly one of the two output sequences: its id occurs once in total between
the MatchResults of the reconciled list and the unmatched list — never in
both and never in neither. -/
theorem c5_billet_partition (billets : List Billet) (payments : List Payment)
    (hnd : (billets.map Billet.id).Nodup) (b : Billet) (hb : b ∈ billets) :
    ((reconcileReport billets payments).reconciledBillets.countP
        (fun e => e.billetId = b.id)) +
    ((reconcileReport billets payments).nonReconciledBillets.countP
        (fun x => x.id = b.id)) = 1 := by
  have hinv := countInv_run billets payments
  unfold reconcileReport
  simp only
  rw [hinv b.id]
  by_cases hm : b.id ∈ (reconcileByAccountValueDate billets payments
      (reconcileByReferenceID billets payments ⟨[], [], []⟩)).reconciledBilletIds
  · rw [if_pos hm]
    have h0 : (billets.filter (fun x => ¬ x.id ∈
        (reconcileByAccountValueDate billets payments
          (reconcileByReferenceID billets payments
            ⟨[], [], []⟩)).reconciledBilletIds)).countP
        (fun x => x.id = b.id) = 0 := by
      rw [List.countP_eq_zero]
      intro a ha
      rcases List.mem_filter.mp ha with ⟨_, hq⟩
      simp only [decide_eq_true_eq] at hq ⊢
      intro heq
      exact hq (heq ▸ hm)
    rw [h0]
  · rw [if_neg hm]
    have hfe : (billets.filter (fun x => ¬ x.id ∈
        (reconcileByAccountValueDate billets payments
          (reconcileByReferenceID billets payments
            ⟨[], [], []⟩)).reconciledBilletIds)).countP
        (fun x => x.id = b.id) = billets.countP (fun x => x.id = b.id) := by
      rw [List.countP_filter]
      apply List.countP_congr
      intro a _
      by_cases hq : a.id = b.id
      · simp [hq, hm]
      · simp [hq]
    rw [hfe, countP_id_eq_one billets hnd b hb]

/-- A billet left unmatched in the C5 witness run. -/
def w5Billet : Billet := ⟨"W1", "A", 1, 0, none⟩

/-- Witness for C5: with one billet and no payments, the billet id is counted
once across the two output sequences. -/
theorem c5_billet_partition_witness :
    ((reconcileReport [w5Billet] []).reconciledBillets.countP
        (fun e => e.billetId = w5Billet.id)) +
    ((reconcileReport [w5Billet] []).nonReconciledBillets.countP
        (fun x => x.id = w5Billet.id)) = 1 :=
  c5_billet_partition [w5Billet] [] (by decide) w5Billet (by decide)

/-- The key triple ordered by the phase-2 selection criteria: date distance
between payment date and billet issuance date, amount difference, and
issuance date. -/
def candidateKey (p : Payment) (b : Billet) : ℤ × ℚ × ℤ :=
  (|p.paymentDate - b.issuanceDate|, |p.amount - b.amount|, b.issuanceDate)

/-- Modelled from the spec: the strict tie-break priority of phase 2 —
(1) smaller date distance wins; (2) on a date-distance tie, smaller amount
difference wins; (3) on a further tie, the earlier issuance date wins. -/
def specPriorityLt (k l : ℤ × ℚ × ℤ) : Prop :=
  k.1 < l.1 ∨ (k.1 = l.1 ∧ k.2.1 < l.2.1) ∨
    (k.1 = l.1 ∧ k.2.1 = l.2.1 ∧ k.2.2 < l.2.2)

instance (k l : ℤ × ℚ × ℤ) : Decidable (specPriorityLt k l) := by
  unfold specPriorityLt
  infer_instance

/-- The priority order is irreflexive. -/
lemma specPriorityLt_irrefl (k : ℤ × ℚ × ℤ) : ¬ specPriorityLt k k := by
  simp [specPriorityLt]

/-- The priority order is transitive. -/
lemma specPriorityLt_trans {k l m : ℤ × ℚ × ℤ}
    (h1 : specPriorityLt k l) (h2 : specPriorityLt l m) :
    specPriorityLt k m := by
  rcases h1 with h | ⟨e1, h⟩ | ⟨e1, e2, h⟩ <;>
    rcases h2 with g | ⟨f1, g⟩ | ⟨f1, f2, g⟩
  · exact Or.inl (h.trans g)
  · exact Or.inl (f1 ▸ h)
  · exact Or.inl (f1 ▸ h)
  · exact Or.inl (e1 ▸ g)
  · exact Or.inr (Or.inl ⟨e1.trans f1, h.trans g⟩)
  · exact Or.inr (Or.inl ⟨e1.trans f1, f2 ▸ h⟩)
  · exact Or.inl (e1 ▸ g)
  · exact Or.inr (Or.inl ⟨e1.trans f1, by rw [e2]; exact g⟩)
  · exact Or.inr (Or.inr ⟨e1.trans f1, e2.trans f2, h.trans g⟩)

/-- What the inner phase-2 scan over a candidate list must produce: `none`
exactly when no billet passes the filters; otherwise the first candidate
attaining the priority-minimal key, along with its date and amount
differences. -/
def BestChoice (ids : List String) (p : Payment) (l : List Billet) :
    Option (Billet × ℤ × ℚ) → Prop
  | none => ∀ c ∈ l, accountValueDateCandidate ids p c = false
  | some (bb, dd, ad) =>
      bb ∈ l ∧ accountValueDateCandidate ids p bb = true ∧
      dd = |p.paymentDate - bb.issuanceDate| ∧ ad = |p.amount - bb.amount| ∧
      (∀ c ∈ l, accountValueDateCandidate ids p c = true →
        ¬ specPriorityLt (candidateKey p c) (candidateKey p bb)) ∧
      (l.filter (accountValueDateCandidate ids p)).find?
        (fun c => candidateKey p c = candidateKey p bb) = some bb

/-- Unfolding of the priority order at two candidate keys, matching the
comparison chain written in the code. -/
lemma specPriorityLt_key (p : Payment) (a bb : Billet) :
    specPriorityLt (candidateKey p a) (candidateKey p bb) ↔
      (|p.paymentDate - a.issuanceDate| < |p.paymentDate - bb.issuanceDate| ∨
       (|p.paymentDate - a.issuanceDate| = |p.paymentDate - bb.issuanceDate| ∧
         |p.amount - a.amount| < |p.amount - bb.amount|) ∨
       (|p.paymentDate - a.issuanceDate| = |p.paymentDate - bb.issuanceDate| ∧
         |p.amount - a.amount| = |p.amount - bb.amount| ∧
         a.issuanceDate < bb.issuanceDate)) :=
  Iff.rfl

/-- The inner phase-2 scan satisfies `BestChoice`: it returns the first
candidate attaining the priority-minimal key triple. -/
lemma bestChoice_foldl (ids : List String) (p : Payment) :
    ∀ l : List Billet,
      BestChoice ids p l (l.foldl (bestCandidateStep ids p) none) := by
  intro l
  induction l using List.reverseRecOn with
  | nil =>
      rw [List.foldl_nil]
      exact fun c hc => absurd hc (List.not_mem_nil c)
  | append_singleton l a ih =>
      rw [List.foldl_append, List.foldl_cons, List.foldl_nil]
      rcases hres : l.foldl (bestCandidateStep ids p) none with _ | ⟨bb, dd, ad⟩
      · -- no candidate among l
        rw [hres] at ih
        by_cases hcand : accountValueDateCandidate ids p a = true
        · -- a becomes the best
          have hstep : bestCandidateStep ids p none a =
              some (a, |p.paymentDate - a.issuanceDate|, |p.amount - a.amount|) := by
            unfold bestCandidateStep
            rw [if_pos hcand]
          rw [hstep]
          have hfilter : l.filter (accountValueDateCandidate ids p) = [] :=
            List.filter_eq_nil_iff.mpr (fun c hc => by simp [ih c hc])
          refine ⟨List.mem_append_right l (List.mem_singleton_self a), hcand,
            rfl, rfl, ?_, ?_⟩
          · intro c hc hcc
            rcases List.mem_append.mp hc with hcl | hca
            · rw [ih c hcl] at hcc
              cases hcc
            · rw [List.mem_singleton.mp hca]
              exact specPriorityLt_irrefl _
          · rw [List.filter_append, hfilter, List.nil_append,
              List.filter_cons, if_pos hcand, List.filter_nil]
            simp
        · -- a rejected: still no candidate
          have hstep : bestCandidateStep ids p none a = none := by
            unfold bestCandidateStep
            rw [if_neg hcand]
          rw [hstep]
          intro c hc
          rcases List.mem_append.mp hc with hcl | hca
          · exact ih c hcl
          · rw [List.mem_singleton.mp hca]
            exact Bool.eq_false_iff.mpr hcand
      · -- best of l is (bb, dd, ad)
        rw [hres] at ih
        obtain ⟨hmem, hbbcand, hdd, had, hmin, hfind⟩ := ih
        by_cases hcand : accountValueDateCandidate ids p a = true
        · by_cases hlt : specPriorityLt (candidateKey p a) (candidateKey p bb)
          · -- a strictly improves: a becomes the best
            have hstep : bestCandidateStep ids p (some (bb, dd, ad)) a =
                some (a, |p.paymentDate - a.issuanceDate|,
                  |p.amount - a.amount|) := by
              unfold bestCandidateStep
              rw [if_pos hcand]
              dsimp only
              rw [hdd, had, if_pos ((specPriorityLt_key p a bb).mp hlt)]
            rw [hstep]
            refine ⟨List.mem_append_right l (List.mem_singleton_self a), hcand,
              rfl, rfl, ?_, ?_⟩
            · intro c hc hcc
              rcases List.mem_append.mp hc with hcl | hca
              · intro hclt
                exact hmin c hcl hcc (specPriorityLt_trans hclt hlt)
              · rw [List.mem_singleton.mp hca]
                exact specPriorityLt_irrefl _
            · have hnone : (l.filter (accountValueDateCandidate ids p)).find?
                  (fun c => candidateKey p c = candidateKey p a) = none := by
                rw [List.find?_eq_none]
                intro c hc
                rcases List.mem_filter.mp hc with ⟨hcl, hcc⟩
                simp only [decide_eq_true_eq]
                intro hkey
                exact hmin c hcl hcc (hkey ▸ hlt)
              rw [List.filter_append, List.filter_cons, if_pos hcand,
                List.filter_nil, List.find?_append, hnone]
              simp
          · -- a does not strictly improve: bb stays the best
            have hstep : bestCandidateStep ids p (some (bb, dd, ad)) a =
                some (bb, dd, ad) := by
              unfold bestCandidateStep
              rw [if_pos hcand]
              dsimp only
              rw [hdd, had,
                if_neg (fun hc => hlt ((specPriorityLt_key p a bb).mpr hc))]
            rw [hstep]
            refine ⟨List.mem_append_left _ hmem, hbbcand, hdd, had, ?_, ?_⟩
            · intro c hc hcc
              rcases List.mem_append.mp hc with hcl | hca
              · exact hmin c hcl hcc
              · rw [List.mem_singleton.mp hca]
                exact hlt
            · rw [List.filter_append, List.find?_append, hfind]
              rfl
        · -- a rejected: bb stays the best
          have hstep : bestCandidateStep ids p (some (bb, dd, ad)) a =
              some (bb, dd, ad) := by
            unfold bestCandidateStep
            rw [if_neg hcand]
          rw [hstep]
          refine ⟨List.mem_append_left _ hmem, hbbcand, hdd, had, ?_, ?_⟩
          · intro c hc hcc
            rcases List.mem_append.mp hc with hcl | hca
            · exact hmin c hcl hcc
            · rw [List.mem_singleton.mp hca] at hcc
              exact absurd hcc hcand
          · rw [List.filter_append, List.filter_cons, if_neg hcand,
              List.filter_nil, List.append_nil]
            exact hfind

/-- C8: in phase 2, for every unconsumed payment, the chosen billet among the
within-tolerance, same-account candidates is selected by this priority:
smaller date distance wins; on a date-distance tie, smaller amount difference
wins; on a further tie, the earlier issuance date wins; and a later candidate
that ties on all three keys does not replace the current best — the scan
returns the FIRST candidate whose key triple no candidate strictly beats. -/
theorem c8_phase2_best_selection (reconciledBilletIds : List String)
    (p : Payment) (billets : List Billet) (bb : Billet) (dd : ℤ) (ad : ℚ)
    (h : findBestBillet reconciledBilletIds p billets = some (bb, dd, ad)) :
    bb ∈ billets ∧
    accountValueDateCandidate reconciledBilletIds p bb = true ∧
    dd = |p.paymentDate - bb.issuanceDate| ∧ ad = |p.amount - bb.amount| ∧
    (∀ c ∈ billets, accountValueDateCandidate reconciledBilletIds p c = true →
      ¬ specPriorityLt (candidateKey p c) (candidateKey p bb)) ∧
    (billets.filter (accountValueDateCandidate reconciledBilletIds p)).find?
      (fun c => candidateKey p c = candidateKey p bb) = some bb := by
  have hb := bestChoice_foldl reconciledBilletIds p billets
  unfold findBestBillet at h
  rw [h] at hb
  exact hb

/-- The first of two billets tied on account, amount and date distance. -/
def w8BilletA : Billet := ⟨"WA", "A", 100, 5, none⟩

/-- The second of the tied billets, with a later issuance date. -/
def w8BilletB : Billet := ⟨"WB", "A", 100, 15, none⟩

/-- The payment the tied billets compete for. -/
def w8Payment : Payment := ⟨"PW", "A", 100, 10, none⟩

/-- Witness for C8: with two candidates tied on date distance (5) and amount
difference (0), the billet with the earlier issuance date is chosen, and it
is the first candidate attaining the minimal key. -/
theorem c8_phase2_best_selection_witness :
    findBestBillet [] w8Payment [w8BilletA, w8BilletB] =
      some (w8BilletA, 5, 0) ∧
    ([w8BilletA, w8BilletB].filter
        (accountValueDateCandidate [] w8Payment)).find?
      (fun c => candidateKey w8Payment c = candidateKey w8Payment w8BilletA) =
        some w8BilletA :=
  ⟨by decide,
   (c8_phase2_best_selection [] w8Payment [w8BilletA, w8BilletB] w8BilletA 5 0
      (by decide)).2.2.2.2.2⟩

/-- C10: `ReconcileBilletsWithPayments` has no failure path: for every input,
including empty billet and payment lists, it returns a nil error and a report
(the Go code initializes both output slices to non-nil empty slices and only
appends to them; the nil/empty slice distinction has no counterpart in the
list model). -/
theorem c10_no_failure_path (billets : List Billet) (payments : List Payment) :
    ∃ r, ReconcileBilletsWithPayments billets payments = Except.ok r :=
  ⟨reconcileReport billets payments, rfl⟩

end Conciliacao
